import Mathlib

/-!
Shallow embedding of the contact-book core of this repository
(files task1.py and task2.py; the core classes are identical in both).

Conventions of the embedding:
* Python `datetime` values produced by `strptime("%d.%m.%Y")` and by
  `datetime.today()` carry a date and a midnight time component; all the
  claims quantify over calendar dates, so a datetime is modelled as a
  `Date` (year, month, day) at midnight.
* `datetime` comparison is modelled through the proleptic-Gregorian
  ordinal (`toordinal` in CPython): for midnight datetimes, `<=` and `<`
  agree with comparison of ordinals.  `today + timedelta(days=days)` is
  the date whose ordinal is `toordinal today + days`; it overflows
  (OverflowError) when that exceeds the ordinal of 9999-12-31.
* A raised exception is modelled as `Except.error ()` (the core never
  catches its own exceptions).  A mutating method that can raise returns
  the post state of the object together with `Option Unit`
  (`some ()` = the call raised; the mutations performed before the raise
  are kept, exactly as in Python).
* `str.isdigit` is modelled on the ASCII fragment of strings: a
  character counts as a digit iff it is one of the characters 0-9.
-/

/-- A calendar date (the date part of a Python `datetime`). -/
structure Date where
  year : Nat
  month : Nat
  day : Nat
deriving DecidableEq

/-- Gregorian leap-year rule, as in Python's `calendar.isleap` /
`datetime`. -/
def isLeap (y : Nat) : Bool :=
  y % 4 == 0 && (y % 100 != 0 || y % 400 == 0)

/-- Length of month `m` (1-12) given the leap flag of the year. -/
def monthDays (leap : Bool) (m : Nat) : Nat :=
  match m with
  | 1 => 31
  | 2 => if leap then 29 else 28
  | 3 => 31
  | 4 => 30
  | 5 => 31
  | 6 => 30
  | 7 => 31
  | 8 => 31
  | 9 => 30
  | 10 => 31
  | 11 => 30
  | 12 => 31
  | _ => 0

/-- Length of month `m` of year `y`. -/
def daysInMonth (y m : Nat) : Nat := monthDays (isLeap y) m

/-- Days in the months of the year strictly before month `m`
(CPython `_days_before_month`). -/
def daysBeforeMonth (leap : Bool) (m : Nat) : Nat :=
  ((List.range (m - 1)).map (fun i => monthDays leap (i + 1))).sum

/-- Days in the years strictly before year `y`
(CPython `_days_before_year`). -/
def daysBeforeYear (y : Nat) : Nat :=
  365 * (y - 1) + (y - 1) / 4 - (y - 1) / 100 + (y - 1) / 400

/-- Proleptic-Gregorian ordinal of a date, 0001-01-01 being day 1
(CPython `date.toordinal`). -/
def toOrdinal (d : Date) : Nat :=
  daysBeforeYear d.year + daysBeforeMonth (isLeap d.year) d.month + d.day

/-- Ordinal of `datetime.max`, 9999-12-31. -/
def maxOrdinal : Nat := toOrdinal ⟨9999, 12, 31⟩

/-- The date denotes a real calendar date in Python's supported range
(`MINYEAR = 1`, `MAXYEAR = 9999`). -/
def validDate (d : Date) : Prop :=
  1 ≤ d.year ∧ d.year ≤ 9999 ∧ 1 ≤ d.month ∧ d.month ≤ 12 ∧
    1 ≤ d.day ∧ d.day ≤ daysInMonth d.year d.month

instance (d : Date) : Decidable (validDate d) := by
  unfold validDate; infer_instance

/-- Models `datetime` comparison `d1 <= d2` (midnight times): ordinals compare. -/
def dateLe (d1 d2 : Date) : Bool := toOrdinal d1 ≤ toOrdinal d2

/-- Models `datetime` comparison `d1 < d2` (midnight times): ordinals compare. -/
def dateLt (d1 d2 : Date) : Bool := toOrdinal d1 < toOrdinal d2

/-- Models `birthday.replace(year=y)`: rebuilds the datetime with a new year,
revalidating it; fails (ValueError) when the day does not exist in that
month of the new year (Feb 29 onto a non-leap year) or the year leaves
Python's range. -/
def replaceYear (d : Date) (y : Nat) : Option Date :=
  if 1 ≤ y ∧ y ≤ 9999 ∧ d.day ≤ daysInMonth y d.month then
    some ⟨y, d.month, d.day⟩
  else
    none

/-! ### Validated fields (task1.py lines 11-32) -/

/-- One character of the ASCII fragment of `str.isdigit`. -/
def pyDigitChar (c : Char) : Bool := '0' ≤ c && c ≤ '9'

/-- Models `value.isdigit()` on ASCII strings: non-empty and all digits. -/
def pyIsdigit (s : String) : Bool :=
  !s.data.isEmpty && s.data.all pyDigitChar

/-- Models `Phone._validate_phone`: `value.isdigit() and len(value) == 10`. -/
def validate_phone (s : String) : Bool :=
  pyIsdigit s && s.length == 10

/-- The `Phone` field: a wrapper holding the validated string. -/
structure Phone where
  value : String
deriving DecidableEq

/-- Models `Phone.__init__`: succeeds and stores the string unchanged iff
`_validate_phone` accepts it, else raises ValueError. -/
def mkPhone (s : String) : Option Phone :=
  if validate_phone s then some ⟨s⟩ else none

/-- Models `Name.__init__`: `if not value: raise`; a string is falsy iff empty. -/
def mkName (s : String) : Option String :=
  if s = "" then none else some s

/-! ### Birthday parsing: `datetime.strptime(value, "%d.%m.%Y")`.

CPython's `_strptime` compiles the format to a regex in which the two
dots are literals, `%d` is the alternation `3[01]|[12]\d|0[1-9]|[1-9]|
space[1-9]`, `%m` is `1[0-2]|0[1-9]|[1-9]`, and `%Y` is exactly four
digits; the whole input must be consumed, and the matched numbers are
then revalidated by the `datetime` constructor (year at least 1, day at
most the length of the month).  Because the literal dots separate the
numeric groups and no alternative may contain a dot, matching is
equivalent to splitting the input at the dots and matching each group
in full. -/

/-- Numeric value of an ASCII digit character. -/
def charDigit (c : Char) : Nat := c.toNat - 48

/-- Split a character list at every dot (CPython regex literal `\.`). -/
def splitDots : List Char → List (List Char)
  | [] => [[]]
  | c :: cs =>
    if c = '.' then [] :: splitDots cs
    else
      match splitDots cs with
      | [] => [[c]]
      | g :: gs => (c :: g) :: gs

/-- The `%d` directive: one or two characters denoting 1-31, a leading
zero only for 01-09, or a space followed by 1-9. -/
def matchDay : List Char → Option Nat
  | [c] => if '1' ≤ c && c ≤ '9' then some (charDigit c) else none
  | [c1, c2] =>
    if c1 = ' ' then
      if '1' ≤ c2 && c2 ≤ '9' then some (charDigit c2) else none
    else if pyDigitChar c1 && pyDigitChar c2 then
      let v := charDigit c1 * 10 + charDigit c2
      if 1 ≤ v && v ≤ 31 then some v else none
    else none
  | _ => none

/-- The `%m` directive: one or two characters denoting 1-12, a leading
zero only for 01-09. -/
def matchMonth : List Char → Option Nat
  | [c] => if '1' ≤ c && c ≤ '9' then some (charDigit c) else none
  | [c1, c2] =>
    if pyDigitChar c1 && pyDigitChar c2 then
      let v := charDigit c1 * 10 + charDigit c2
      if 1 ≤ v && v ≤ 12 then some v else none
    else none
  | _ => none

/-- The `%Y` directive: exactly four digit characters. -/
def matchYear : List Char → Option Nat
  | [c1, c2, c3, c4] =>
    if pyDigitChar c1 && pyDigitChar c2 && pyDigitChar c3 && pyDigitChar c4 then
      some (charDigit c1 * 1000 + charDigit c2 * 100 + charDigit c3 * 10 +
        charDigit c4)
    else none
  | _ => none

/-- Models `Birthday.__init__`: parse under `%d.%m.%Y`, then the `datetime`
constructor revalidates (year at least `MINYEAR = 1`, day within the
month); on failure the ValueError becomes the field's ValidationError. -/
def mkBirthday (s : String) : Option Date :=
  match splitDots s.data with
  | [g1, g2, g3] =>
    match matchDay g1, matchMonth g2, matchYear g3 with
    | some d, some m, some y =>
      if 1 ≤ y ∧ d ≤ daysInMonth y m then some ⟨y, m, d⟩ else none
    | _, _, _ => none
  | _ => none

/-! ### Rendering: `strftime("%d.%m.%Y")`, day and month zero-padded to
two digits, the year written in the four-digit `YYYY` field of the
pattern (zero-padded to four). -/

/-- The ASCII character of one digit value. -/
def digitChar (n : Nat) : Char := Char.ofNat (48 + n)

/-- Two-digit zero-padded rendering (`%d`, `%m`). -/
def pad2 (n : Nat) : List Char := [digitChar (n / 10), digitChar (n % 10)]

/-- Four-digit zero-padded rendering (`%Y`). -/
def pad4 (n : Nat) : List Char :=
  [digitChar (n / 1000), digitChar (n / 100 % 10), digitChar (n / 10 % 10),
    digitChar (n % 10)]

/-- Models `d.strftime("%d.%m.%Y")`. -/
def renderDate (d : Date) : String :=
  ⟨pad2 d.day ++ '.' :: pad2 d.month ++ '.' :: pad4 d.year⟩

/-! ### Record (task1.py lines 34-75) -/

/-- One contact: a validated name, the phone list in insertion order,
and an optional birthday. -/
structure Record where
  name : String
  phones : List Phone
  birthday : Option Date
deriving DecidableEq

/-- Models `Record.__init__`: validates the name through `Name`, starts with no
phones and no birthday. -/
def mkRecord (name : String) : Option Record :=
  match mkName name with
  | some n => some ⟨n, [], none⟩
  | none => none

/-- Models `Record.find_phone`: first phone whose stored value equals the
argument, else `None`. -/
def find_phone (r : Record) (phone : String) : Option Phone :=
  r.phones.find? (fun p => p.value == phone)

/-- Models `list.remove` of the phone object found by `find_phone`: drops the
first list entry whose value matches. -/
def removeFirstPhone : List Phone → String → List Phone
  | [], _ => []
  | p :: ps, v => if p.value == v then ps else p :: removeFirstPhone ps v

/-- Models `Record.add_phone`: `Phone(phone)` is constructed first (raising on
an invalid string, with nothing appended), then appended. -/
def add_phone (r : Record) (phone : String) : Record × Option Unit :=
  match mkPhone phone with
  | some p => ({ r with phones := r.phones ++ [p] }, none)
  | none => (r, some ())

/-- Models `Record.remove_phone`: no-op when `find_phone` returns `None`. -/
def remove_phone (r : Record) (phone : String) : Record :=
  match find_phone r phone with
  | none => r
  | some _ => { r with phones := removeFirstPhone r.phones phone }

/-- Models `Record.edit_phone`: when the old phone is found it is removed
first, and only then is `add_phone` called on the new string — a raise
in `add_phone` leaves the removal in place. -/
def edit_phone (r : Record) (old_phone new_phone : String) :
    Record × Option Unit :=
  match find_phone r old_phone with
  | none => (r, none)
  | some _ =>
    add_phone { r with phones := removeFirstPhone r.phones old_phone }
      new_phone

/-- Models `Record.add_birthday`: validates, then overwrites the birthday. -/
def add_birthday (r : Record) (birthday : String) : Record × Option Unit :=
  match mkBirthday birthday with
  | some d => ({ r with birthday := some d }, none)
  | none => (r, some ())

/-- Models `Record.days_to_birthday`: `datetime.today()` is modelled as the
argument `today` (a date, at midnight).  Projects the birthday onto
`today`'s year, rolls one year forward when that is strictly before
`today`, and returns the day difference; a failing `replace` propagates
its ValueError. -/
def days_to_birthday (r : Record) (today : Date) : Except Unit (Option Int) :=
  match r.birthday with
  | none => Except.ok none
  | some b =>
    match replaceYear b today.year with
    | none => Except.error ()
    | some c1 =>
      if dateLt c1 today then
        match replaceYear b (today.year + 1) with
        | none => Except.error ()
        | some c2 =>
          Except.ok (some ((toOrdinal c2 : Int) - (toOrdinal today : Int)))
      else
        Except.ok (some ((toOrdinal c1 : Int) - (toOrdinal today : Int)))

/-- Models `Record.__str__`. -/
def record_str (r : Record) : String :=
  "Contact name: " ++ r.name ++ ", phones: " ++
    String.intercalate "; " (r.phones.map Phone.value) ++ ", birthday: " ++
    (match r.birthday with
     | some b => renderDate b
     | none => "No birthday")

/-! ### AddressBook (task1.py lines 77-101).  A Python dict is modelled
as an association list in insertion order: writing to an existing key
replaces its value in place, writing a fresh key appends, and iteration
follows the list. -/

/-- The address book: `UserDict` data, name to record, insertion order. -/
structure AddressBook where
  data : List (String × Record)
deriving DecidableEq

/-- Models `AddressBook()`: created empty. -/
def emptyBook : AddressBook := ⟨[]⟩

/-- Dict assignment `self.data[k] = r`. -/
def upsert : List (String × Record) → String → Record → List (String × Record)
  | [], k, r => [(k, r)]
  | (k', r') :: t, k, r =>
    if k' = k then (k, r) :: t else (k', r') :: upsert t k r

/-- Models `AddressBook.add_record`: `self.data[record.name.value] = record`. -/
def add_record (b : AddressBook) (r : Record) : AddressBook :=
  ⟨upsert b.data r.name r⟩

/-- Models `AddressBook.find`: `self.data.get(name, None)`. -/
def bookFind (b : AddressBook) (name : String) : Option Record :=
  (b.data.find? (fun kr => kr.1 == name)).map Prod.snd

/-- Models `AddressBook.delete`: `del self.data[name]` guarded by membership. -/
def bookDelete (b : AddressBook) (name : String) : AddressBook :=
  ⟨b.data.filter (fun kr => kr.1 != name)⟩

/-- Models `self.data.values()` in iteration order. -/
def recordsOf (b : AddressBook) : List Record := b.data.map Prod.snd

/-- The loop body of `get_upcoming_birthdays` over the remaining
records.  `todayOrd + days` is the ordinal of `end_date`; both interval
comparisons compare ordinals, which for valid dates is `datetime`
comparison.  A ValueError from `replace` aborts the whole call. -/
def upcomingGo (today : Date) (days : Nat) :
    List Record → Except Unit (List Record)
  | [] => Except.ok []
  | r :: rs =>
    match r.birthday with
    | none => upcomingGo today days rs
    | some b =>
      match replaceYear b today.year with
      | none => Except.error ()
      | some c1 =>
        if dateLe today c1 && decide (toOrdinal c1 ≤ toOrdinal today + days) then
          match upcomingGo today days rs with
          | Except.ok l => Except.ok (r :: l)
          | Except.error e => Except.error e
        else if dateLt c1 today then
          match replaceYear b (today.year + 1) with
          | none => Except.error ()
          | some c2 =>
            if dateLe today c2 && decide (toOrdinal c2 ≤ toOrdinal today + days)
            then
              match upcomingGo today days rs with
              | Except.ok l => Except.ok (r :: l)
              | Except.error e => Except.error e
            else upcomingGo today days rs
        else upcomingGo today days rs

/-- Models `AddressBook.get_upcoming_birthdays`: `datetime.today()` is modelled
as the argument `today` (a date, at midnight); `end_date = today +
timedelta(days=days)` is computed up front and overflows (raising) past
9999-12-31. -/
def get_upcoming_birthdays (b : AddressBook) (days : Nat) (today : Date) :
    Except Unit (List Record) :=
  if toOrdinal today + days ≤ maxOrdinal then
    upcomingGo today days (recordsOf b)
  else
    Except.error ()

/-! ### Spec-side definitions.  These follow the words of the spec and
of the claims, to be compared with the code-side functions above. -/

/-- The claims' window predicate: project the birthday onto today's
year; when that candidate is strictly before today, onto the next year;
include iff the candidate lies in the closed interval from `today` to
`today + days` (ordinal comparison).  An undefined projection never
includes a record. -/
def upcomingPred (today : Date) (days : Nat) (r : Record) : Bool :=
  match r.birthday with
  | none => false
  | some b =>
    match replaceYear b today.year with
    | none => false
    | some c1 =>
      if dateLt c1 today then
        match replaceYear b (today.year + 1) with
        | none => false
        | some c2 =>
          dateLe today c2 && decide (toOrdinal c2 ≤ toOrdinal today + days)
      else
        dateLe today c1 && decide (toOrdinal c1 ≤ toOrdinal today + days)

/-- The birthday projected onto the current year, or onto the next year
when the first candidate is strictly before today (the year-projection
of the spec). -/
def projectedBirthday (today b : Date) : Option Date :=
  match replaceYear b today.year with
  | none => none
  | some c1 => if dateLt c1 today then replaceYear b (today.year + 1) else some c1

/-- Record membership predicate for claim C5: the projected birthday
equals today. -/
def birthdayOnPred (today : Date) (r : Record) : Bool :=
  match r.birthday with
  | none => false
  | some b => decide (projectedBirthday today b = some today)

/-- Every phone stored in the record is exactly ten characters long,
all decimal digits. -/
def PhonesOK (r : Record) : Prop :=
  ∀ p ∈ r.phones, p.value.length = 10 ∧ p.value.data.all pyDigitChar = true

/-- Every key of the book is non-empty and equals the name of the
record it maps to. -/
def BookNamesOK (b : AddressBook) : Prop :=
  ∀ kr ∈ b.data, kr.1 ≠ "" ∧ kr.2.name = kr.1

/-- Every birthday stored in the book is a real calendar date (as
guaranteed by the `Birthday` field's parser). -/
def BookDatesOK (b : AddressBook) : Prop :=
  ∀ r ∈ recordsOf b, ∀ bd, r.birthday = some bd → validDate bd

instance (r : Record) : Decidable (PhonesOK r) := by
  unfold PhonesOK; infer_instance

instance (b : AddressBook) : Decidable (BookNamesOK b) := by
  unfold BookNamesOK; infer_instance

instance (b : AddressBook) : Decidable (BookDatesOK b) := by
  unfold BookDatesOK
  exact List.decidableBAll _ _

/-! ### Reachability (claims C9 and C10) -/

/-- Books reachable from the empty book by `add_record` and `delete`.
Any record handed to `add_record` was built by `Record.__init__`, whose
`Name` field rejects the empty string, and no operation ever rewrites a
record's name, so added records carry a non-empty name. -/
inductive ReachableBook : AddressBook → Prop
  | empty : ReachableBook emptyBook
  | add : ∀ b r, ReachableBook b → r.name ≠ "" →
      ReachableBook (add_record b r)
  | del : ∀ b n, ReachableBook b → ReachableBook (bookDelete b n)

/-- Records reachable from `Record.__init__` by any sequence of
`add_phone`, `remove_phone` and `edit_phone` calls, keeping the
post-state of failing calls as well. -/
inductive ReachableRecord : Record → Prop
  | init : ∀ n r, mkRecord n = some r → ReachableRecord r
  | addP : ∀ r s, ReachableRecord r → ReachableRecord (add_phone r s).1
  | remP : ∀ r s, ReachableRecord r → ReachableRecord (remove_phone r s)
  | editP : ∀ r s t, ReachableRecord r → ReachableRecord (edit_phone r s t).1

deriving instance DecidableEq for Except

/-! ### Concrete fixtures used by witnesses and counterexamples -/

/-- The John record of the source's usage example, after the edits the
claims exercise. -/
def johnRec : Record := ⟨"John", [⟨"1234567890"⟩], mkBirthday "01.01.1990"⟩

/-- The Jane record of the source's usage example. -/
def janeRec : Record := ⟨"Jane", [⟨"9876543210"⟩], mkBirthday "05.05.1995"⟩

/-- A two-record book built through the book API. -/
def bkJohnJane : AddressBook := add_record (add_record emptyBook johnRec) janeRec

/-- A record whose birthday is the leap day Feb 29. -/
def rFeb29 : Record := ⟨"Feb", [], mkBirthday "29.02.2000"⟩

/-- A book holding only the leap-day record. -/
def bkFeb29 : AddressBook := add_record emptyBook rFeb29

/-- A one-phone record used by the edit-phone counterexamples. -/
def recA : Record := ⟨"A", [⟨"1234567890"⟩], none⟩

/-- A two-phone record used by the edit-phone witnesses. -/
def recW : Record := ⟨"W", [⟨"1234567890"⟩, ⟨"5555555555"⟩], none⟩

/-! ### Arithmetic facts about the date model -/

theorem isLeap_spec (y : Nat) :
    isLeap y = true ↔ (y % 4 = 0 ∧ (y % 100 ≠ 0 ∨ y % 400 = 0)) := by
  simp [isLeap]

set_option maxHeartbeats 1000000 in
theorem daysBeforeYear_succ (y : Nat) (hy : 1 ≤ y) :
    daysBeforeYear (y + 1) =
      daysBeforeYear y + (if isLeap y then 366 else 365) := by
  have hls := isLeap_spec y
  split
  · next h =>
    have h' := hls.mp h
    unfold daysBeforeYear
    omega
  · next h =>
    have h' : ¬ (y % 4 = 0 ∧ (y % 100 ≠ 0 ∨ y % 400 = 0)) := by
      intro hc; exact h (hls.mpr hc)
    unfold daysBeforeYear
    omega

theorem daysBeforeYear_le_succ (y : Nat) :
    daysBeforeYear y ≤ daysBeforeYear (y + 1) := by
  rcases Nat.eq_zero_or_pos y with h | h
  · subst h; decide
  · rw [daysBeforeYear_succ y h]; exact Nat.le_add_right _ _

theorem daysBeforeYear_mono {y1 y2 : Nat} (h : y1 ≤ y2) :
    daysBeforeYear y1 ≤ daysBeforeYear y2 := by
  induction y2 with
  | zero =>
    have h0 : y1 = 0 := by omega
    subst h0; exact Nat.le_refl _
  | succ n ih =>
    rcases Nat.lt_or_ge y1 (n + 1) with h' | h'
    · exact Nat.le_trans (ih (by omega)) (daysBeforeYear_le_succ n)
    · have : y1 = n + 1 := by omega
      subst this; exact Nat.le_refl _

theorem daysBeforeMonth_add (L : Bool) :
    ∀ m < 13, 1 ≤ m →
      daysBeforeMonth L m + monthDays L m = daysBeforeMonth L (m + 1) := by
  cases L <;> decide

theorem daysBeforeMonth_mono (L : Bool) :
    ∀ m2 < 14, ∀ m1, m1 ≤ m2 →
      daysBeforeMonth L m1 ≤ daysBeforeMonth L m2 := by
  cases L <;> decide

theorem daysBeforeMonth_year_bound (L : Bool) :
    ∀ m < 13, 1 ≤ m →
      daysBeforeMonth L m + monthDays L m ≤ (if L then 366 else 365) := by
  cases L <;> decide

theorem monthDays_le_31 (L : Bool) : ∀ m, monthDays L m ≤ 31 := by
  intro m
  unfold monthDays
  cases L <;> (split <;> simp)

/-- The function `toordinal` is strictly monotone on valid dates with respect to the
field-lexicographic order (which is how Python compares `datetime`s). -/
theorem toOrdinal_lt_of_lex (d1 d2 : Date) (h1 : validDate d1)
    (h2 : validDate d2)
    (hlt : d1.year < d2.year ∨ d1.year = d2.year ∧
      (d1.month < d2.month ∨ d1.month = d2.month ∧ d1.day < d2.day)) :
    toOrdinal d1 < toOrdinal d2 := by
  obtain ⟨hy1, hy1', hm1, hm1', hd1, hd1'⟩ := h1
  obtain ⟨hy2, hy2', hm2, hm2', hd2, hd2'⟩ := h2
  rw [daysInMonth] at hd1' hd2'
  unfold toOrdinal
  rcases hlt with hy | ⟨hyEq, hmm⟩
  · have hb1 : daysBeforeMonth (isLeap d1.year) d1.month + d1.day ≤
        (if isLeap d1.year then 366 else 365) := by
      have := daysBeforeMonth_year_bound (isLeap d1.year) d1.month
        (by omega) hm1
      omega
    have hstep := daysBeforeYear_succ d1.year hy1
    have hmono := daysBeforeYear_mono (show d1.year + 1 ≤ d2.year by omega)
    omega
  · rw [hyEq]
    rcases hmm with hm | ⟨hmEq, hd⟩
    · have e1 := daysBeforeMonth_add (isLeap d2.year) d1.month (by omega) hm1
      have e2 := daysBeforeMonth_mono (isLeap d2.year) d2.month (by omega)
        (d1.month + 1) (by omega)
      rw [hyEq] at hd1'
      omega
    · rw [hmEq]
      omega

/-- The function `toordinal` is injective on valid dates. -/
theorem toOrdinal_inj (d1 d2 : Date) (h1 : validDate d1) (h2 : validDate d2)
    (h : toOrdinal d1 = toOrdinal d2) : d1 = d2 := by
  obtain ⟨y1, m1, a1⟩ := d1
  obtain ⟨y2, m2, a2⟩ := d2
  rcases Nat.lt_trichotomy y1 y2 with hy | hy | hy
  · have := toOrdinal_lt_of_lex ⟨y1, m1, a1⟩ ⟨y2, m2, a2⟩ h1 h2 (Or.inl hy)
    omega
  · rcases Nat.lt_trichotomy m1 m2 with hm | hm | hm
    · have := toOrdinal_lt_of_lex ⟨y1, m1, a1⟩ ⟨y2, m2, a2⟩ h1 h2
        (Or.inr ⟨hy, Or.inl hm⟩)
      omega
    · rcases Nat.lt_trichotomy a1 a2 with hd | hd | hd
      · have := toOrdinal_lt_of_lex ⟨y1, m1, a1⟩ ⟨y2, m2, a2⟩ h1 h2
          (Or.inr ⟨hy, Or.inr ⟨hm, hd⟩⟩)
        omega
      · subst hy; subst hm; subst hd; rfl
      · have := toOrdinal_lt_of_lex ⟨y2, m2, a2⟩ ⟨y1, m1, a1⟩ h2 h1
          (Or.inr ⟨hy.symm, Or.inr ⟨hm.symm, hd⟩⟩)
        omega
    · have := toOrdinal_lt_of_lex ⟨y2, m2, a2⟩ ⟨y1, m1, a1⟩ h2 h1
        (Or.inr ⟨hy.symm, Or.inl hm⟩)
      omega
  · have := toOrdinal_lt_of_lex ⟨y2, m2, a2⟩ ⟨y1, m1, a1⟩ h2 h1 (Or.inl hy)
    omega

/-- A successful `replace(year=y)` of a valid date is valid. -/
theorem replaceYear_valid {d : Date} {y : Nat} {c : Date}
    (hd : validDate d) (h : replaceYear d y = some c) : validDate c := by
  unfold replaceYear at h
  split at h
  · next hcond =>
    obtain ⟨h1, h2, h3⟩ := hcond
    obtain ⟨_, _, hm, hm', hday, _⟩ := hd
    cases h
    exact ⟨h1, h2, hm, hm', hday, h3⟩
  · cases h

/-! ### The birthday-window loop returns exactly the filtered records -/

theorem dateLt_false_of_dateLe {d1 d2 : Date} (h : dateLe d1 d2 = true) :
    dateLt d2 d1 = false := by
  unfold dateLe at h
  unfold dateLt
  simp only [decide_eq_true_eq] at h
  simp only [decide_eq_false_iff_not]
  omega

theorem upcomingPred_of_none {today : Date} {days : Nat} {r : Record}
    (hb : r.birthday = none) : upcomingPred today days r = false := by
  unfold upcomingPred
  simp only [hb]

theorem upcomingPred_eq_first {today : Date} {days : Nat} {r : Record}
    {b c1 : Date} (hb : r.birthday = some b)
    (hc1 : replaceYear b today.year = some c1)
    (hlt : dateLt c1 today = false) :
    upcomingPred today days r =
      (dateLe today c1 && decide (toOrdinal c1 ≤ toOrdinal today + days)) := by
  unfold upcomingPred
  simp only [hb, hc1, hlt]
  simp

theorem upcomingPred_eq_second {today : Date} {days : Nat} {r : Record}
    {b c1 c2 : Date} (hb : r.birthday = some b)
    (hc1 : replaceYear b today.year = some c1)
    (hlt : dateLt c1 today = true)
    (hc2 : replaceYear b (today.year + 1) = some c2) :
    upcomingPred today days r =
      (dateLe today c2 && decide (toOrdinal c2 ≤ toOrdinal today + days)) := by
  unfold upcomingPred
  simp only [hb, hc1, hlt, hc2]
  simp [hc2]

theorem upcomingGo_eq_filter (today : Date) (days : Nat) :
    ∀ rs l, upcomingGo today days rs = Except.ok l →
      l = rs.filter (upcomingPred today days) := by
  intro rs
  induction rs with
  | nil =>
    intro l h
    unfold upcomingGo at h
    cases h
    rfl
  | cons r rs ih =>
    intro l h
    unfold upcomingGo at h
    rw [List.filter_cons]
    cases hb : r.birthday with
    | none =>
      simp only [hb] at h
      rw [upcomingPred_of_none hb, if_neg (by simp)]
      exact ih l h
    | some b =>
      simp only [hb] at h
      cases hc1 : replaceYear b today.year with
      | none =>
        simp only [hc1] at h
        cases h
      | some c1 =>
        simp only [hc1] at h
        by_cases h1 : (dateLe today c1 &&
            decide (toOrdinal c1 ≤ toOrdinal today + days)) = true
        · rw [if_pos h1] at h
          have hle : dateLe today c1 = true := (Bool.and_eq_true _ _).mp h1 |>.1
          rw [upcomingPred_eq_first hb hc1 (dateLt_false_of_dateLe hle), h1,
            if_pos rfl]
          cases hgo : upcomingGo today days rs with
          | ok l' =>
            rw [hgo] at h
            cases h
            rw [ih l' hgo]
          | error e =>
            rw [hgo] at h
            cases h
        · rw [if_neg h1] at h
          rw [Bool.not_eq_true] at h1
          by_cases h2 : dateLt c1 today = true
          · rw [if_pos h2] at h
            cases hc2 : replaceYear b (today.year + 1) with
            | none =>
              simp only [hc2] at h
              cases h
            | some c2 =>
              simp only [hc2] at h
              by_cases h3 : (dateLe today c2 &&
                  decide (toOrdinal c2 ≤ toOrdinal today + days)) = true
              · rw [if_pos h3] at h
                rw [upcomingPred_eq_second hb hc1 h2 hc2, h3, if_pos rfl]
                cases hgo : upcomingGo today days rs with
                | ok l' =>
                  rw [hgo] at h
                  cases h
                  rw [ih l' hgo]
                | error e =>
                  rw [hgo] at h
                  cases h
              · rw [if_neg h3] at h
                rw [Bool.not_eq_true] at h3
                rw [upcomingPred_eq_second hb hc1 h2 hc2, h3,
                  if_neg (by simp)]
                exact ih l h
          · rw [if_neg h2] at h
            rw [Bool.not_eq_true] at h2
            rw [upcomingPred_eq_first hb hc1 h2, h1, if_neg (by simp)]
            exact ih l h

/-- When `get_upcoming_birthdays` returns without raising, its result is
the in-order filter of the book's records by the window predicate. -/
theorem get_upcoming_birthdays_ok (b : AddressBook) (days : Nat)
    (today : Date) (l : List Record)
    (h : get_upcoming_birthdays b days today = Except.ok l) :
    l = (recordsOf b).filter (upcomingPred today days) := by
  unfold get_upcoming_birthdays at h
  split at h
  · exact upcomingGo_eq_filter today days (recordsOf b) l h
  · cases h

/-! ### Phone validation characterised -/

theorem validate_phone_iff (s : String) :
    validate_phone s = true ↔
      (s.length = 10 ∧ s.data.all pyDigitChar = true) := by
  unfold validate_phone pyIsdigit
  constructor
  · intro h
    have h' := (Bool.and_eq_true _ _).mp h
    have h1 := (Bool.and_eq_true _ _).mp h'.1
    refine ⟨by simpa using h'.2, h1.2⟩
  · rintro ⟨hlen, hall⟩
    have hne : s.data.isEmpty = false := by
      have : s.data.length = 10 := hlen
      cases hd : s.data with
      | nil => rw [hd] at this; simp at this
      | cons c cs => simp [List.isEmpty]
    simp [hne, hall, hlen]

/-! ### Render/parse round trip for dates -/

theorem splitDots_append (g rest : List Char) (hg : '.' ∉ g) :
    splitDots (g ++ '.' :: rest) = g :: splitDots rest := by
  induction g with
  | nil =>
    simp [splitDots]
  | cons c cs ih =>
    have hc : ¬ c = '.' := fun h => hg (by simp [h])
    have hcs : '.' ∉ cs := fun h => hg (List.mem_cons_of_mem _ h)
    simp only [List.cons_append, splitDots, List.append_eq, if_neg hc, ih hcs]

theorem splitDots_no_dot (g : List Char) (hg : '.' ∉ g) :
    splitDots g = [g] := by
  induction g with
  | nil => rfl
  | cons c cs ih =>
    have hc : ¬ c = '.' := fun h => hg (by simp [h])
    have hcs : '.' ∉ cs := fun h => hg (List.mem_cons_of_mem _ h)
    simp only [splitDots, if_neg hc, ih hcs]

theorem digitChar_ne_dot : ∀ n < 10, digitChar n ≠ '.' := by decide

theorem dot_not_mem_pad2 (n : Nat) (h : n < 100) : '.' ∉ pad2 n := by
  intro hmem
  unfold pad2 at hmem
  rcases List.mem_cons.mp hmem with h1 | hmem
  · exact digitChar_ne_dot (n / 10) (by omega) h1.symm
  · rcases List.mem_cons.mp hmem with h2 | hmem
    · exact digitChar_ne_dot (n % 10) (by omega) h2.symm
    · simp at hmem

theorem dot_not_mem_pad4 (n : Nat) (h : n < 10000) : '.' ∉ pad4 n := by
  intro hmem
  unfold pad4 at hmem
  rcases List.mem_cons.mp hmem with h1 | hmem
  · exact digitChar_ne_dot (n / 1000) (by omega) h1.symm
  · rcases List.mem_cons.mp hmem with h2 | hmem
    · exact digitChar_ne_dot (n / 100 % 10) (by omega) h2.symm
    · rcases List.mem_cons.mp hmem with h3 | hmem
      · exact digitChar_ne_dot (n / 10 % 10) (by omega) h3.symm
      · rcases List.mem_cons.mp hmem with h4 | hmem
        · exact digitChar_ne_dot (n % 10) (by omega) h4.symm
        · simp at hmem

theorem matchDay_pad2 : ∀ d < 32, 1 ≤ d → matchDay (pad2 d) = some d := by
  decide

theorem matchMonth_pad2 : ∀ m < 13, 1 ≤ m → matchMonth (pad2 m) = some m := by
  decide

theorem pyDigitChar_digitChar : ∀ k < 10, pyDigitChar (digitChar k) = true := by
  decide

theorem charDigit_digitChar : ∀ k < 10, charDigit (digitChar k) = k := by
  decide

theorem matchYear_pad4 (y : Nat) (h : y < 10000) :
    matchYear (pad4 y) = some y := by
  simp only [pad4, matchYear]
  rw [pyDigitChar_digitChar (y / 1000) (by omega),
    pyDigitChar_digitChar (y / 100 % 10) (by omega),
    pyDigitChar_digitChar (y / 10 % 10) (by omega),
    pyDigitChar_digitChar (y % 10) (by omega),
    charDigit_digitChar (y / 1000) (by omega),
    charDigit_digitChar (y / 100 % 10) (by omega),
    charDigit_digitChar (y / 10 % 10) (by omega),
    charDigit_digitChar (y % 10) (by omega)]
  simp only [Bool.and_self, if_true, Option.some.injEq]
  omega

theorem monthDays_lt_32 (L : Bool) : ∀ m, monthDays L m < 32 := by
  intro m
  unfold monthDays
  cases L <;> (split <;> simp)

theorem mkBirthday_renderDate (d : Date) (h : validDate d) :
    mkBirthday (renderDate d) = some d := by
  obtain ⟨y, m, dd⟩ := d
  obtain ⟨hy, hy', hm, hm', hd, hd'⟩ := h
  dsimp only at hy hy' hm hm' hd hd'
  rw [daysInMonth] at hd'
  have hdd32 : dd < 32 := Nat.lt_of_le_of_lt hd' (monthDays_lt_32 _ _)
  have hdata : (renderDate ⟨y, m, dd⟩).data =
      pad2 dd ++ '.' :: (pad2 m ++ '.' :: pad4 y) := rfl
  unfold mkBirthday
  rw [hdata,
    splitDots_append _ _ (dot_not_mem_pad2 dd (by omega)),
    splitDots_append _ _ (dot_not_mem_pad2 m (by omega)),
    splitDots_no_dot _ (dot_not_mem_pad4 y (by omega))]
  simp only [matchDay_pad2 dd hdd32 hd, matchMonth_pad2 m (by omega) hm,
    matchYear_pad4 y (by omega)]
  rw [if_pos ⟨hy, by rw [daysInMonth]; exact hd'⟩]

/-! ### List facts about the phone operations -/

theorem mem_removeFirstPhone {l : List Phone} {v : String} {p : Phone}
    (h : p ∈ removeFirstPhone l v) : p ∈ l := by
  induction l with
  | nil => simpa [removeFirstPhone] using h
  | cons q qs ih =>
    unfold removeFirstPhone at h
    split at h
    · exact List.mem_cons_of_mem _ h
    · rcases List.mem_cons.mp h with h' | h'
      · exact h' ▸ List.mem_cons_self _ _
      · exact List.mem_cons_of_mem _ (ih h')

theorem countP_removeFirstPhone_eq_zero {l : List Phone} {v : String}
    (h : l.countP (fun p => p.value == v) = 1) :
    (removeFirstPhone l v).countP (fun p => p.value == v) = 0 := by
  induction l with
  | nil => simp at h
  | cons q qs ih =>
    unfold removeFirstPhone
    by_cases hq : q.value = v
    · rw [if_pos (by simp [hq])]
      rw [List.countP_cons, if_pos (by simp [hq])] at h
      omega
    · rw [if_neg (by simp [hq])]
      rw [List.countP_cons, if_neg (by simp [hq])] at h
      rw [List.countP_cons, if_neg (by simp [hq])]
      simpa using ih (by simpa using h)

theorem length_removeFirstPhone {l : List Phone} {v : String}
    (h : 0 < l.countP (fun p => p.value == v)) :
    (removeFirstPhone l v).length + 1 = l.length := by
  induction l with
  | nil => simp at h
  | cons q qs ih =>
    unfold removeFirstPhone
    by_cases hq : q.value = v
    · rw [if_pos (by simp [hq])]
      simp
    · rw [if_neg (by simp [hq])]
      rw [List.countP_cons, if_neg (by simp [hq])] at h
      simp only [List.length_cons]
      rw [← ih (by simpa using h)]

theorem find?_eq_none_of_countP_zero {l : List Phone} {v : String}
    (h : l.countP (fun p => p.value == v) = 0) :
    l.find? (fun p => p.value == v) = none := by
  rw [List.find?_eq_none]
  intro p hp
  have := List.countP_eq_zero.mp h p hp
  simpa using this

theorem find?_append_of_none {l1 l2 : List Phone} {q : Phone → Bool}
    (h : l1.find? q = none) :
    (l1 ++ l2).find? q = l2.find? q := by
  induction l1 with
  | nil => rfl
  | cons p ps ih =>
    cases hq : q p with
    | true =>
      rw [List.find?_cons_of_pos _ hq] at h
      cases h
    | false =>
      rw [List.find?_cons_of_neg _ (by simp [hq])] at h
      rw [List.cons_append, List.find?_cons_of_neg _ (by simp [hq])]
      exact ih h

/-! ### Book and record invariant helpers -/

theorem mem_upsert {l : List (String × Record)} {k : String} {r : Record}
    {x : String × Record} (hx : x ∈ upsert l k r) :
    x = (k, r) ∨ x ∈ l := by
  induction l with
  | nil =>
    rcases List.mem_cons.mp hx with h | h
    · exact Or.inl h
    · simp at h
  | cons kr t ih =>
    unfold upsert at hx
    split at hx
    · rcases List.mem_cons.mp hx with h | h
      · exact Or.inl h
      · exact Or.inr (List.mem_cons_of_mem _ h)
    · rcases List.mem_cons.mp hx with h | h
      · exact Or.inr (h ▸ List.mem_cons_self _ _)
      · rcases ih h with h' | h'
        · exact Or.inl h'
        · exact Or.inr (List.mem_cons_of_mem _ h')

theorem bookNamesOK_add_record {b : AddressBook} {r : Record}
    (hb : BookNamesOK b) (hr : r.name ≠ "") :
    BookNamesOK (add_record b r) := by
  intro kr hkr
  rcases mem_upsert hkr with h | h
  · subst h; exact ⟨hr, rfl⟩
  · exact hb kr h

theorem bookNamesOK_delete {b : AddressBook} {n : String}
    (hb : BookNamesOK b) : BookNamesOK (bookDelete b n) := by
  intro kr hkr
  exact hb kr (List.mem_of_mem_filter hkr)

theorem phonesOK_add_phone {r : Record} {s : String} (hr : PhonesOK r) :
    PhonesOK (add_phone r s).1 := by
  unfold add_phone
  cases hm : mkPhone s with
  | none => exact hr
  | some p =>
    intro q hq
    rcases List.mem_append.mp hq with h | h
    · exact hr q h
    · have hq' : q = ⟨s⟩ ∧ validate_phone s = true := by
        unfold mkPhone at hm
        split at hm
        · next hv =>
          cases hm
          rcases List.mem_singleton.mp h with h'
          exact ⟨h', hv⟩
        · cases hm
      obtain ⟨hqs, hv⟩ := hq'
      obtain ⟨hlen, hall⟩ := (validate_phone_iff s).mp hv
      subst hqs
      exact ⟨hlen, hall⟩

theorem phonesOK_removeFirst {r : Record} {s : String} (hr : PhonesOK r) :
    PhonesOK { r with phones := removeFirstPhone r.phones s } := by
  intro q hq
  exact hr q (mem_removeFirstPhone hq)


/-! ### The zero-day window is exact equality of dates -/

theorem window_zero_eq_decide {c T : Date} (hc : validDate c)
    (hT : validDate T) :
    (dateLe T c && decide (toOrdinal c ≤ toOrdinal T + 0)) =
      decide (some c = some T) := by
  by_cases he : c = T
  · subst he
    simp [dateLe]
  · have hr : decide (some c = some T) = false :=
      decide_eq_false (by simpa using he)
    rw [hr]
    cases hbl : (dateLe T c && decide (toOrdinal c ≤ toOrdinal T + 0)) with
    | false => rfl
    | true =>
      obtain ⟨hb1, hb2⟩ := (Bool.and_eq_true _ _).mp hbl
      unfold dateLe at hb1
      simp only [decide_eq_true_eq] at hb1 hb2
      exact absurd (toOrdinal_inj c T hc hT (by omega)) he

theorem upcomingPred_zero_days (T : Date) (r : Record) (hT : validDate T)
    (hb : ∀ bd, r.birthday = some bd → validDate bd) :
    upcomingPred T 0 r = birthdayOnPred T r := by
  cases hbd : r.birthday with
  | none =>
    rw [upcomingPred_of_none hbd]
    unfold birthdayOnPred
    simp only [hbd]
  | some bd =>
    have hvbd := hb bd hbd
    unfold birthdayOnPred
    simp only [hbd]
    cases hc1 : replaceYear bd T.year with
    | none =>
      have hp : upcomingPred T 0 r = false := by
        unfold upcomingPred
        simp only [hbd, hc1]
      rw [hp]
      unfold projectedBirthday
      simp only [hc1]
      simp
    | some c1 =>
      have hvc1 := replaceYear_valid hvbd hc1
      by_cases hlt : dateLt c1 T = true
      · cases hc2 : replaceYear bd (T.year + 1) with
        | none =>
          have hp : upcomingPred T 0 r = false := by
            unfold upcomingPred
            simp only [hbd, hc1, hlt, hc2]
            simp
          rw [hp]
          unfold projectedBirthday
          simp only [hc1, hlt, hc2]
          simp
        | some c2 =>
          have hvc2 := replaceYear_valid hvbd hc2
          rw [upcomingPred_eq_second hbd hc1 hlt hc2]
          unfold projectedBirthday
          simp only [hc1, hlt, hc2]
          rw [window_zero_eq_decide hvc2 hT]
          simp
      · rw [Bool.not_eq_true] at hlt
        rw [upcomingPred_eq_first hbd hc1 hlt]
        unfold projectedBirthday
        simp only [hc1, hlt]
        rw [window_zero_eq_decide hvc1 hT]
        simp

/-! ## The claims -/

/-- C2 counterexample: `edit_phone` with a present old phone and an
invalid new phone raises after the removal has already happened, so the
failing call leaves the record changed (its phone list lost the old
phone): not all-or-nothing. -/
theorem edit_phone_failure_mutates :
    (edit_phone recA "1234567890" "12").2 = some () ∧
    (edit_phone recA "1234567890" "12").1 ≠ recA := by
  constructor
  · decide
  · decide

/-- C2 (amended): a failing `edit_phone old new` (new invalid) leaves
the record with exactly the first old phone removed — the partial
mutation persists, while name and birthday are untouched; failing field
constructions leave state unchanged, so a failing `add_phone` and a
failing `add_birthday` return the record exactly as it was. -/
theorem edit_phone_failure_state (r : Record) (old_phone new_phone : String) :
    ((edit_phone r old_phone new_phone).2 = some () →
      (edit_phone r old_phone new_phone).1 =
        { r with phones := removeFirstPhone r.phones old_phone }) ∧
    ((add_phone r new_phone).2 = some () → (add_phone r new_phone).1 = r) ∧
    ((add_birthday r new_phone).2 = some () →
      (add_birthday r new_phone).1 = r) := by
  refine ⟨?_, ?_, ?_⟩
  · intro h
    unfold edit_phone at h ⊢
    cases hf : find_phone r old_phone with
    | none =>
      simp only [hf] at h
      cases h
    | some p =>
      simp only [hf] at h ⊢
      unfold add_phone at h ⊢
      cases hm : mkPhone new_phone with
      | none => simp [hm]
      | some q =>
        rw [hm] at h
        cases h
  · intro h
    unfold add_phone at h ⊢
    cases hm : mkPhone new_phone with
    | none => simp [hm]
    | some q =>
      rw [hm] at h
      cases h
  · intro h
    unfold add_birthday at h ⊢
    cases hm : mkBirthday new_phone with
    | none => simp [hm]
    | some d =>
      rw [hm] at h
      cases h

/-- C2 witness: the failing edit on a one-phone record leaves the list
emptied (the removal persisted), and failing add_phone / add_birthday
calls leave the record unchanged. -/
theorem edit_phone_failure_state_witness :
    (edit_phone recA "1234567890" "12").1 =
      { recA with phones := removeFirstPhone recA.phones "1234567890" } ∧
    (add_phone recA "12").1 = recA ∧ (add_birthday recA "12").1 = recA :=
  ⟨(edit_phone_failure_state recA "1234567890" "12").1 (by decide),
   (edit_phone_failure_state recA "1234567890" "12").2.1 (by decide),
   (edit_phone_failure_state recA "1234567890" "12").2.2 (by decide)⟩

/-- C3 counterexample: with old = new = a present valid phone, the
claimed postcondition fails — edit_phone removes the phone and appends
it back, so `find_phone old` still returns a Phone, not the not-found
indicator. -/
theorem edit_phone_old_still_found :
    find_phone recA "1234567890" = some ⟨"1234567890"⟩ ∧
    validate_phone "1234567890" = true ∧
    (edit_phone recA "1234567890" "1234567890").2 = none ∧
    find_phone (edit_phone recA "1234567890" "1234567890").1 "1234567890" ≠
      none := by
  refine ⟨by decide, by decide, by decide, by decide⟩

/-- C3 (amended): when the record holds exactly one phone with value
`old` and `new` is a valid phone different from `old`, `edit_phone`
succeeds and afterwards `find_phone old` is the not-found indicator,
`find_phone new` returns a Phone, and the phone count is unchanged;
when no phone with value `old` is present, `edit_phone` is a silent
no-op (the counterexample forces the two extra provisos: with
`old = new`, or with duplicate old phones, the edited record still
finds `old`). -/
theorem edit_phone_success_spec (r : Record) (old_phone new_phone : String) :
    (r.phones.countP (fun p => p.value == old_phone) = 1 →
      validate_phone new_phone = true → new_phone ≠ old_phone →
      (edit_phone r old_phone new_phone).2 = none ∧
      find_phone (edit_phone r old_phone new_phone).1 old_phone = none ∧
      (find_phone (edit_phone r old_phone new_phone).1 new_phone).isSome =
        true ∧
      (edit_phone r old_phone new_phone).1.phones.length =
        r.phones.length) ∧
    (find_phone r old_phone = none →
      edit_phone r old_phone new_phone = (r, none)) := by
  constructor
  · intro hcount hval hne
    have hfind : (r.phones.find? (fun p => p.value == old_phone)).isSome :=
      List.find?_isSome.mpr (by
        obtain ⟨p, hp, hp'⟩ := List.countP_pos_iff.mp
          (by rw [hcount]; exact Nat.one_pos)
        exact ⟨p, hp, hp'⟩)
    have hmk : mkPhone new_phone = some ⟨new_phone⟩ := by
      unfold mkPhone
      rw [if_pos hval]
    cases hf : find_phone r old_phone with
    | none =>
      unfold find_phone at hf
      rw [hf] at hfind
      cases hfind
    | some p =>
      have hedit : edit_phone r old_phone new_phone =
          ({ r with phones :=
              removeFirstPhone r.phones old_phone ++ [⟨new_phone⟩] }, none) := by
        unfold edit_phone
        simp only [hf]
        unfold add_phone
        rw [hmk]
      rw [hedit]
      have hzero := countP_removeFirstPhone_eq_zero hcount
      refine ⟨rfl, ?_, ?_, ?_⟩
      · unfold find_phone
        dsimp only
        rw [find?_append_of_none (find?_eq_none_of_countP_zero hzero)]
        rw [List.find?_cons_of_neg _ (by simp [hne])]
        rfl
      · unfold find_phone
        dsimp only
        apply List.find?_isSome.mpr
        exact ⟨⟨new_phone⟩, List.mem_append_right _ (List.mem_singleton.mpr rfl),
          by simp⟩
      · dsimp only
        rw [List.length_append]
        have := length_removeFirstPhone (l := r.phones) (v := old_phone)
          (by rw [hcount]; exact Nat.one_pos)
        simp only [List.length_singleton]
        omega
  · intro hf
    unfold edit_phone
    rw [hf]

/-- C3 witness: on a record holding 1234567890 and 5555555555, editing
1234567890 to 1112223333 succeeds with the stated postconditions, and
editing a phone that is not present is a no-op. -/
theorem edit_phone_success_spec_witness :
    ((edit_phone recW "1234567890" "1112223333").2 = none ∧
     find_phone (edit_phone recW "1234567890" "1112223333").1 "1234567890" =
       none ∧
     (find_phone (edit_phone recW "1234567890" "1112223333").1
       "1112223333").isSome = true ∧
     (edit_phone recW "1234567890" "1112223333").1.phones.length =
       recW.phones.length) ∧
    edit_phone recW "0000000000" "1112223333" = (recW, none) :=
  ⟨(edit_phone_success_spec recW "1234567890" "1112223333").1 (by decide)
      (by decide) (by decide),
   (edit_phone_success_spec recW "0000000000" "1112223333").2 (by decide)⟩

/-- C7: rendering any real calendar date in the DD.MM.YYYY pattern and
constructing a Birthday from that string succeeds and yields the same
date back (render/parse round trip). -/
theorem birthday_render_parse_roundtrip (d : Date) (h : validDate d) :
    mkBirthday (renderDate d) = some d :=
  mkBirthday_renderDate d h

/-- C7 witness: the round trip at 29.02.2024 (a leap day, so the parse
must accept the 29 against the leap year). -/
theorem birthday_render_parse_roundtrip_witness :
    mkBirthday (renderDate ⟨2024, 2, 29⟩) = some ⟨2024, 2, 29⟩ :=
  birthday_render_parse_roundtrip ⟨2024, 2, 29⟩ (by decide)

/-- C9: every book reachable from the empty book by add_record and
delete maps only non-empty keys, each equal to the name of the record
it maps to; and both add_record (on a record whose name passed Name
validation) and delete preserve this invariant on any book satisfying
it. -/
theorem book_keys_match_names :
    (∀ b, ReachableBook b → BookNamesOK b) ∧
    (∀ b r, BookNamesOK b → r.name ≠ "" → BookNamesOK (add_record b r)) ∧
    (∀ b n, BookNamesOK b → BookNamesOK (bookDelete b n)) := by
  refine ⟨?_, fun b r hb hr => bookNamesOK_add_record hb hr,
    fun b n hb => bookNamesOK_delete hb⟩
  intro b hb
  induction hb with
  | empty => intro kr hkr; cases hkr
  | add b r _ hr ih => exact bookNamesOK_add_record ih hr
  | del b n _ ih => exact bookNamesOK_delete ih

/-- C9 witness: the invariant evaluated on the concrete reachable book
obtained by adding John and Jane and deleting Jane. -/
theorem book_keys_match_names_witness :
    BookNamesOK (bookDelete bkJohnJane "Jane") :=
  book_keys_match_names.1 (bookDelete bkJohnJane "Jane")
    (ReachableBook.del _ "Jane"
      (ReachableBook.add _ janeRec
        (ReachableBook.add _ johnRec ReachableBook.empty (by decide))
        (by decide)))

/-- C10: every record reachable from Record construction by any
sequence of add_phone, remove_phone and edit_phone calls — including
failing ones, whose post-state is kept — stores only phones that are
exactly ten characters long and all decimal digits. -/
theorem record_phones_always_valid (r : Record) (h : ReachableRecord r) :
    PhonesOK r := by
  induction h with
  | init n r hmk =>
    unfold mkRecord at hmk
    cases hn : mkName n with
    | none =>
      rw [hn] at hmk
      cases hmk
    | some m =>
      rw [hn] at hmk
      cases hmk
      intro p hp
      cases hp
  | addP r s _ ih => exact phonesOK_add_phone ih
  | remP r s _ ih =>
    unfold remove_phone
    cases hf : find_phone r s with
    | none => exact ih
    | some p => exact phonesOK_removeFirst ih
  | editP r s t _ ih =>
    unfold edit_phone
    cases hf : find_phone r s with
    | none => exact ih
    | some p => exact phonesOK_add_phone (phonesOK_removeFirst ih)

/-- C10 witness: the invariant on the concrete record reached by a
successful add_phone, a failing add_phone, and an edit_phone. -/
theorem record_phones_always_valid_witness :
    PhonesOK (edit_phone
      (add_phone (add_phone ⟨"John", [], none⟩ "1234567890").1 "12").1
      "1234567890" "1112223333").1 :=
  record_phones_always_valid _
    (ReachableRecord.editP _ "1234567890" "1112223333"
      (ReachableRecord.addP _ "12"
        (ReachableRecord.addP _ "1234567890"
          (ReachableRecord.init "John" ⟨"John", [], none⟩ (by decide)))))
